import Mathlib

/-!
Verification of the file-admission gate of the log-analyzer repository.

The repository ships three Python maintenance/fixture scripts. The admission
gate itself (signature table, pattern matcher, classification policy and the
three-layer `classify` decision, implemented in the Rust core under
`log-analyzer/src-tauri`, which the scripts reference) is not part of the
sources under review, so its data model and operations are modelled from the
specification. The two Python scripts (`fix_tests.py`, `fix_all_locks.py`)
are embedded from their sources directly.
-/

namespace LogGate

/-- Modelled from the spec: the final decision of the admission gate
(the Rust core implementing it is not among the sources under review). -/
inductive Decision where
  | Accept
  | Reject
deriving DecidableEq, Repr

/-- Modelled from the spec: the layer of the gate that produced a verdict. -/
inductive LayerTag where
  | Signature
  | Pattern
  | Policy
  | Default
deriving DecidableEq, Repr

/-- Modelled from the spec: a verdict is a decision, the layer that rendered
it, and a human-readable reason string. -/
structure Verdict where
  decision : Decision
  layer : LayerTag
  reason : String
deriving DecidableEq, Repr

/-- Modelled from the spec: a binary file signature, a magic byte sequence
plus the name of the format it identifies. -/
structure Signature where
  magic : List Nat
  formatName : String
deriving DecidableEq, Repr

/-- Modelled from the spec: the built-in signature table (PNG, JPEG/JFIF,
legacy-executable MZ, ID3-tagged audio, PDF), with the magic bytes the test
fixtures of `generate_test_data.py` document. -/
def builtinSignatures : List Signature :=
  [ ⟨[0x89, 0x50, 0x4E, 0x47, 0x0D, 0x0A, 0x1A, 0x0A], "PNG"⟩,
    ⟨[0xFF, 0xD8, 0xFF], "JPEG"⟩,
    ⟨[0x4D, 0x5A], "MZ"⟩,
    ⟨[0x49, 0x44, 0x33], "ID3"⟩,
    ⟨[0x25, 0x50, 0x44, 0x46], "PDF"⟩ ]

/-- Modelled from the spec: byte-for-byte comparison of a magic against the
leading bytes of a sample; "prefix-exact, no wildcards". -/
def magicMatches : List Nat → List Nat → Bool
  | [], _ => true
  | _ :: _, [] => false
  | a :: as, b :: bs => a == b && magicMatches as bs

/-- Modelled from the spec: among candidate signatures the longest exact
match wins. -/
def pickLongest : List Signature → Option Signature
  | [] => none
  | s :: rest =>
    match pickLongest rest with
    | none => some s
    | some t => if t.magic.length > s.magic.length then some t else some s

/-- Modelled from the spec: `identify(byte_sample)` of the Signature Table,
the registered signature whose magic is a prefix of the sample, or none. -/
def identify (sample : List Nat) : Option Signature :=
  pickLongest (builtinSignatures.filter (fun s => magicMatches s.magic sample))

/-- Byte-for-byte leading-characters comparison on character lists. -/
def startsWith : List Char → List Char → Bool
  | [], _ => true
  | _ :: _, [] => false
  | a :: as, b :: bs => a == b && startsWith as bs

/-- Substring containment on character lists. -/
def containsSub (needle : List Char) : List Char → Bool
  | [] => needle.isEmpty
  | c :: cs => startsWith needle (c :: cs) || containsSub needle cs

/-- The segment after the last occurrence of a separator, when there is one. -/
def afterLast (sep : Char) : List Char → Option (List Char)
  | [] => none
  | c :: cs =>
    match afterLast sep cs with
    | some r => some r
    | none => if c == sep then some cs else none

/-- Modelled from the spec: the filename of a path, the component after the
last path separator. -/
def fileName (path : String) : List Char :=
  match afterLast '/' path.toList with
  | some r => r
  | none => path.toList

/-- Modelled from the spec: the exact filenames recognized as logs. -/
def exactNames : List (List Char) :=
  ["syslog".toList, "messages".toList, "stdout".toList, "stderr".toList]

/-- Modelled from the spec: a date-shaped suffix, checked structurally, not
as a calendar date: a hyphenated ISO-like date `YYYY-MM-DD`, an 8-digit
date `YYYYMMDD`, or the coarse two-character century head `20`. -/
def dateShaped (s : List Char) : Bool :=
  (match s with
   | [a, b, c, d, e, f, g, h, i, j] =>
     a.isDigit && b.isDigit && c.isDigit && d.isDigit && (e == '-') &&
       f.isDigit && g.isDigit && (h == '-') && i.isDigit && j.isDigit
   | _ => false)
  || (s.length == 8 && s.all (fun c => c.isDigit))
  || startsWith ['2', '0'] s

/-- Modelled from the spec: the first built-in pattern rule the lower-cased
filename matches, as the name of the rule, or none: contains the substring
`log`; equals `syslog`, `messages`, `stdout`, `stderr`; or ends after the
last dot in a date-shaped suffix. -/
def matchedRule (fname : List Char) : Option String :=
  let lower := fname.map Char.toLower
  if containsSub "log".toList lower then some "contains log"
  else if exactNames.contains lower then some "exact name"
  else
    match afterLast '.' lower with
    | some suffix => if dateShaped suffix then some "date suffix" else none
    | none => none

/-- Modelled from the spec: `matches_log_pattern(filename)` of the Pattern
Matcher; the union of the built-in rules. -/
def matchesLogPattern (fname : List Char) : Bool :=
  (matchedRule fname).isSome

/-- Modelled from the spec: the user-editable whitelist/blacklist
configuration keyed by extension, with a declared default verdict. -/
structure ClassificationPolicy where
  whitelist : List String
  blacklist : List String
  defaultVerdict : Decision
deriving DecidableEq, Repr

/-- Modelled from the spec: extension normalization for comparison,
case-insensitive and excluding the leading dot. -/
def normExt (e : String) : String :=
  let l :=
    match e.toList with
    | '.' :: rest => rest
    | other => other
  String.mk (l.map Char.toLower)

/-- Modelled from the spec: the three-valued result of a policy lookup. -/
inductive LookupResult where
  | accept
  | reject
  | useDefault
deriving DecidableEq, Repr

/-- Modelled from the spec: `lookup(extension)` of the Classification
Policy; whitelist first, then blacklist, else the default marker. -/
def lookup (pol : ClassificationPolicy) (ext : String) : LookupResult :=
  let e := normExt ext
  if e ∈ pol.whitelist.map normExt then .accept
  else if e ∈ pol.blacklist.map normExt then .reject
  else .useDefault

/-- Modelled from the spec: the error raised by a conflicting update. -/
inductive PolicyError where
  | policyConflict
deriving DecidableEq, Repr

/-- Modelled from the spec: `update(new_whitelist, new_blacklist,
new_default)` validates disjointness and fails with `PolicyConflict` on
overlap. -/
def update (newWl newBl : List String) (newDefault : Decision) :
    Except PolicyError ClassificationPolicy :=
  if ∀ e ∈ newWl, e ∉ newBl then .ok ⟨newWl, newBl, newDefault⟩
  else .error .policyConflict

/-- Modelled from the spec: the process-wide policy state after an update
attempt; a failed update retains the prior policy. -/
def applyUpdate (pol : ClassificationPolicy) (newWl newBl : List String)
    (newDefault : Decision) : ClassificationPolicy :=
  match update newWl newBl newDefault with
  | .ok p => p
  | .error _ => pol

/-- Modelled from the spec: the extension of a filename, the segment after
the last dot, when there is one. -/
def extensionOf (fname : List Char) : Option String :=
  (afterLast '.' fname).map (fun l => String.mk l)

/-- Modelled from the spec: `classify(path, byte_sample)` of the Admission
Filter; signature table first, then pattern matcher, then policy,
short-circuiting at the first layer that renders a verdict. -/
def classify (path : String) (sample : List Nat)
    (pol : ClassificationPolicy) : Verdict :=
  match identify sample with
  | some sig => ⟨.Reject, .Signature, "matched " ++ sig.formatName ++ " signature"⟩
  | none =>
    let fname := fileName path
    match matchedRule fname with
    | some rule => ⟨.Accept, .Pattern, rule ++ " matched"⟩
    | none =>
      match extensionOf fname with
      | some ext =>
        match lookup pol ext with
        | .accept => ⟨.Accept, .Policy, normExt ext ++ " in whitelist"⟩
        | .reject => ⟨.Reject, .Policy, normExt ext ++ " in blacklist"⟩
        | .useDefault => ⟨pol.defaultVerdict, .Default, "no rule matched; applying default"⟩
      | none => ⟨pol.defaultVerdict, .Default, "no rule matched; applying default"⟩

end LogGate

namespace FixTests

/-- Python regular-expression whitespace for str patterns without re.ASCII:
the characters `\s` matches, which are exactly those str.isspace accepts —
ASCII whitespace, the four separator controls, next line, no-break space
and the Unicode space characters. -/
def wsChar (c : Char) : Bool :=
  [0x09, 0x0A, 0x0B, 0x0C, 0x0D, 0x1C, 0x1D, 0x1E, 0x1F, 0x20,
    0x85, 0xA0, 0x1680, 0x2000, 0x2001, 0x2002, 0x2003, 0x2004, 0x2005,
    0x2006, 0x2007, 0x2008, 0x2009, 0x200A, 0x2028, 0x2029, 0x202F,
    0x205F, 0x3000].contains c.toNat

/-- Drop the leading whitespace run, the deterministic reading of a greedy
`\s*` that a non-whitespace literal follows. -/
def consumeWs (s : List Char) : List Char := s.dropWhile wsChar

/-- Consume a literal chunk of the pattern from the head of the input,
returning the remainder on success. -/
def consumeLit : List Char → List Char → Option (List Char)
  | [], s => some s
  | _ :: _, [] => none
  | a :: as, b :: bs => if a == b then consumeLit as bs else none

/-- First literal chunk of the pattern of fix_test_file. -/
def lit1 : List Char := "      render(".toList

/-- Second literal chunk of the pattern. -/
def lit2 : List Char := "<TestWrapper>".toList

/-- Third literal chunk of the pattern. -/
def lit3 : List Char := "<App".toList

/-- Fourth literal chunk of the pattern. -/
def lit4 : List Char := "/>".toList

/-- Fifth literal chunk of the pattern. -/
def lit5 : List Char := "</TestWrapper>".toList

/-- Sixth literal chunk of the pattern. -/
def lit6 : List Char := ");".toList

/-- The literal chunks a `\s*` gap precedes. -/
def tailChunks : List (List Char) := [lit2, lit3, lit4, lit5, lit6]

/-- The replacement text of fix_test_file. -/
def repl : List Char := "      await renderAppAndWait();".toList

/-- Match the remaining chunks of the pattern, a whitespace gap before each,
returning the input after the match. -/
def runChunks : List (List Char) → List Char → Option (List Char)
  | [], s => some s
  | m :: ms, s =>
    match consumeLit m (consumeWs s) with
    | none => none
    | some s2 => runChunks ms s2

/-- Try the whole pattern of fix_test_file at the head of the input:
the literal head, then each further chunk after a whitespace gap. -/
def matchAt (s : List Char) : Option (List Char) :=
  match consumeLit lit1 s with
  | none => none
  | some s1 => runChunks tailChunks s1

theorem consumeWs_length : ∀ s : List Char, (consumeWs s).length ≤ s.length := by
  intro s
  induction s with
  | nil => simp [consumeWs]
  | cons c cs ih =>
    simp only [consumeWs, List.dropWhile_cons]
    split
    · simp only [consumeWs] at ih
      simp only [List.length_cons]
      omega
    · simp

theorem consumeLit_length :
    ∀ (m s r : List Char), consumeLit m s = some r → r.length + m.length = s.length := by
  intro m
  induction m with
  | nil =>
    intro s r h
    simp only [consumeLit, Option.some.injEq] at h
    simp [← h]
  | cons a as ih =>
    intro s r h
    cases s with
    | nil => simp [consumeLit] at h
    | cons b bs =>
      simp only [consumeLit] at h
      split at h
      · have := ih bs r h
        simp only [List.length_cons]
        omega
      · exact absurd h (by simp)

theorem runChunks_length :
    ∀ (ms : List (List Char)) (s r : List Char),
      runChunks ms s = some r → r.length ≤ s.length := by
  intro ms
  induction ms with
  | nil =>
    intro s r h
    simp only [runChunks, Option.some.injEq] at h
    simp [← h]
  | cons m ms2 ih =>
    intro s r h
    simp only [runChunks] at h
    cases hc : consumeLit m (consumeWs s) with
    | none => rw [hc] at h; exact absurd h (by simp)
    | some s2 =>
      rw [hc] at h
      have h1 := consumeLit_length m (consumeWs s) s2 hc
      have h2 : (consumeWs s).length ≤ s.length := consumeWs_length s
      have h3 := ih s2 r h
      omega

theorem matchAt_length :
    ∀ (s r : List Char), matchAt s = some r → r.length < s.length := by
  intro s r h
  simp only [matchAt] at h
  cases hc : consumeLit lit1 s with
  | none => rw [hc] at h; exact absurd h (by simp)
  | some s1 =>
    rw [hc] at h
    have h1 := consumeLit_length lit1 s s1 hc
    have h2 := runChunks_length tailChunks s1 r h
    have h3 : lit1.length = 13 := rfl
    omega

/-- The substitution fix_test_file performs: scan left to right, replace
each leftmost non-overlapping pattern match by the replacement text, and
continue after it, as `re.sub` does. -/
def fixContent : List Char → List Char
  | [] => []
  | c :: cs =>
    match h : matchAt (c :: cs) with
    | some rest => repl ++ fixContent rest
    | none => c :: fixContent cs
termination_by l => l.length
decreasing_by
  · exact matchAt_length _ _ h
  · simp

/-- The whole-file transformation of fix_test_file on the file content. -/
def fixTestContent (content : String) : String :=
  String.mk (fixContent content.toList)

/-- No position of the text starts a pattern match. -/
def NoMatchAll (t : List Char) : Prop :=
  ∀ i : Nat, matchAt (t.drop i) = none

end FixTests

namespace LogGate

theorem pickLongest_isSome :
    ∀ (l : List Signature), l ≠ [] → (pickLongest l).isSome = true
  | [], h => absurd rfl h
  | s :: rest, _ => by
    simp only [pickLongest]
    cases pickLongest rest with
    | none => rfl
    | some t =>
      dsimp only
      split <;> rfl

theorem magicMatches_length :
    ∀ (m s : List Nat), magicMatches m s = true → m.length ≤ s.length := by
  intro m
  induction m with
  | nil => intro s _; simp
  | cons a as ih =>
    intro s h
    cases s with
    | nil => simp [magicMatches] at h
    | cons b bs =>
      simp only [magicMatches, Bool.and_eq_true] at h
      have := ih bs h.2
      simp only [List.length_cons]
      omega

theorem magicMatches_take :
    ∀ (m s : List Nat) (n : Nat), m.length ≤ n →
      magicMatches m (s.take n) = magicMatches m s := by
  intro m
  induction m with
  | nil => intro s n _; rfl
  | cons a as ih =>
    intro s n h
    cases s with
    | nil => simp
    | cons b bs =>
      cases n with
      | zero => simp at h
      | succ k =>
        simp only [List.take_succ_cons, magicMatches]
        rw [ih bs k (by simp at h; omega)]

theorem identify_take (n : Nat) (sample : List Nat)
    (h : ∀ sig ∈ builtinSignatures, sig.magic.length ≤ n) :
    identify (sample.take n) = identify sample := by
  unfold identify
  congr 1
  apply List.filter_congr
  intro s hs
  exact magicMatches_take _ _ _ (h s hs)

/-- Claim C1: a byte sample whose prefix equals, byte-for-byte, the magic of
a registered built-in signature is rejected at the Signature layer,
regardless of filename and policy. -/
theorem classify_signature_rejects (sig : Signature) (path : String)
    (sample : List Nat) (pol : ClassificationPolicy)
    (hmem : sig ∈ builtinSignatures)
    (hpre : magicMatches sig.magic sample = true) :
    (classify path sample pol).decision = Decision.Reject ∧
      (classify path sample pol).layer = LayerTag.Signature := by
  have hf : sig ∈ builtinSignatures.filter (fun s => magicMatches s.magic sample) :=
    List.mem_filter.mpr ⟨hmem, hpre⟩
  obtain ⟨t, ht⟩ :=
    Option.isSome_iff_exists.mp (pickLongest_isSome _ (List.ne_nil_of_mem hf))
  have hid : identify sample = some t := ht
  constructor <;> simp [classify, hid]

/-- Claim C1 witness: a file named report.log whose sample is the 8 PNG
magic bytes is rejected at the Signature layer. -/
theorem classify_signature_rejects_witness :
    (classify "report.log" [0x89, 0x50, 0x4E, 0x47, 0x0D, 0x0A, 0x1A, 0x0A]
        ⟨[], [], Decision.Accept⟩).decision = Decision.Reject ∧
      (classify "report.log" [0x89, 0x50, 0x4E, 0x47, 0x0D, 0x0A, 0x1A, 0x0A]
        ⟨[], [], Decision.Accept⟩).layer = LayerTag.Signature :=
  classify_signature_rejects
    ⟨[0x89, 0x50, 0x4E, 0x47, 0x0D, 0x0A, 0x1A, 0x0A], "PNG"⟩
    "report.log" _ _ (by decide) (by decide)

/-- Claim C2: a filename matching a built-in pattern rule, with a byte
sample matching no registered signature, is accepted at the Pattern layer. -/
theorem classify_pattern_accepts (path : String) (sample : List Nat)
    (pol : ClassificationPolicy)
    (hsig : identify sample = none)
    (hpat : matchesLogPattern (fileName path) = true) :
    (classify path sample pol).decision = Decision.Accept ∧
      (classify path sample pol).layer = LayerTag.Pattern := by
  rcases h : matchedRule (fileName path) with _ | rule
  · simp [matchesLogPattern, h] at hpat
  · constructor <;> simp [classify, hsig, h]

/-- Claim C2 witness: plain text named syslog is accepted at the Pattern
layer. -/
theorem classify_pattern_accepts_witness :
    (classify "syslog" [74, 97, 110] ⟨[], [], Decision.Reject⟩).decision =
        Decision.Accept ∧
      (classify "syslog" [74, 97, 110] ⟨[], [], Decision.Reject⟩).layer =
        LayerTag.Pattern :=
  classify_pattern_accepts "syslog" [74, 97, 110] ⟨[], [], Decision.Reject⟩
    (by decide) (by decide)

/-- Claim C3: classify is total; every input resolves to some Verdict whose
decision is Accept or Reject, and no input aborts classification. -/
theorem classify_total (path : String) (sample : List Nat)
    (pol : ClassificationPolicy) :
    ∃ v : Verdict, classify path sample pol = v ∧
      (v.decision = Decision.Accept ∨ v.decision = Decision.Reject) := by
  refine ⟨classify path sample pol, rfl, ?_⟩
  cases hd : (classify path sample pol).decision
  · exact Or.inl rfl
  · exact Or.inr rfl

/-- Claim C4: an update whose whitelist and blacklist share an extension
fails with PolicyConflict and the active policy is observably unchanged:
every subsequent lookup answers as before. -/
theorem update_conflict_preserves (pol : ClassificationPolicy)
    (wl bl : List String) (dv : Decision) (e : String)
    (hw : e ∈ wl) (hb : e ∈ bl) :
    update wl bl dv = Except.error PolicyError.policyConflict ∧
      ∀ ext, lookup (applyUpdate pol wl bl dv) ext = lookup pol ext := by
  have hcon : ¬ ∀ x ∈ wl, x ∉ bl := fun h => h e hw hb
  constructor
  · simp [update, hcon]
  · intro ext
    simp [applyUpdate, update, hcon]

/-- Claim C4 witness: updating with whitelist and blacklist both containing
txt fails with PolicyConflict and leaves every lookup unchanged. -/
theorem update_conflict_preserves_witness :
    update ["txt"] ["txt"] Decision.Reject =
        Except.error PolicyError.policyConflict ∧
      ∀ ext,
        lookup (applyUpdate ⟨["csv"], ["md"], Decision.Reject⟩
          ["txt"] ["txt"] Decision.Reject) ext =
        lookup ⟨["csv"], ["md"], Decision.Reject⟩ ext :=
  update_conflict_preserves ⟨["csv"], ["md"], Decision.Reject⟩
    ["txt"] ["txt"] Decision.Reject "txt" (by decide) (by decide)

/-- Claim C5: lookup compares extensions case-insensitively and without the
leading dot: whitelist membership answers accept, blacklist membership
answers reject, otherwise the default marker that classify resolves to the
policy default; and plain-text notes.md under whitelist csv, json and
blacklist md is rejected at the Policy layer. -/
theorem lookup_policy_semantics (pol : ClassificationPolicy) (ext : String) :
    (normExt ext ∈ pol.whitelist.map normExt →
      lookup pol ext = LookupResult.accept) ∧
    (normExt ext ∉ pol.whitelist.map normExt →
      normExt ext ∈ pol.blacklist.map normExt →
      lookup pol ext = LookupResult.reject) ∧
    (normExt ext ∉ pol.whitelist.map normExt →
      normExt ext ∉ pol.blacklist.map normExt →
      lookup pol ext = LookupResult.useDefault) ∧
    classify "notes.md" [35, 32, 78, 111, 116, 101, 115]
        ⟨["csv", "json"], ["md"], Decision.Reject⟩ =
      ⟨Decision.Reject, LayerTag.Policy, "md in blacklist"⟩ := by
  refine ⟨?_, ?_, ?_, by decide⟩
  · intro h; simp [lookup, h]
  · intro h1 h2; simp [lookup, h1, h2]
  · intro h1 h2; simp [lookup, h1, h2]

/-- Claim C6: a sample strictly shorter than a registered magic does not
match that signature; and every sample too short to match any registered
signature — the empty sample included — yields no signature match at all
and falls through past the Signature layer, never an error. -/
theorem short_sample_falls_through (sig : Signature) (sample : List Nat)
    (hmem : sig ∈ builtinSignatures)
    (hlen : sample.length < sig.magic.length) :
    magicMatches sig.magic sample = false ∧
      ∀ s : List Nat, (∀ t ∈ builtinSignatures, s.length < t.magic.length) →
        identify s = none ∧
        ∀ (path : String) (pol : ClassificationPolicy),
          (classify path s pol).layer ≠ LayerTag.Signature := by
  constructor
  · cases h : magicMatches sig.magic sample
    · rfl
    · exact absurd (magicMatches_length _ _ h) (by omega)
  · intro s hs
    have hid : identify s = none := by
      unfold identify
      have hfil : builtinSignatures.filter (fun t => magicMatches t.magic s) = [] := by
        rw [List.filter_eq_nil_iff]
        intro t ht hm
        have h1 := magicMatches_length _ _ hm
        have h2 := hs t ht
        omega
      rw [hfil]
      rfl
    refine ⟨hid, ?_⟩
    intro path pol
    rcases h1 : matchedRule (fileName path) with _ | rule
    · rcases h2 : extensionOf (fileName path) with _ | ext
      · simp [classify, hid, h1, h2]
      · rcases h3 : lookup pol ext with _ | _ | _ <;>
          simp [classify, hid, h1, h2, h3]
    · simp [classify, hid, h1]

/-- Claim C6 witness: a one-byte sample is shorter than the PNG magic and
does not match it, and every sample shorter than all registered magics
falls through the Signature layer. -/
theorem short_sample_falls_through_witness :
    magicMatches [0x89, 0x50, 0x4E, 0x47, 0x0D, 0x0A, 0x1A, 0x0A] [0x89] = false ∧
      ∀ s : List Nat, (∀ t ∈ builtinSignatures, s.length < t.magic.length) →
        identify s = none ∧
        ∀ (path : String) (pol : ClassificationPolicy),
          (classify path s pol).layer ≠ LayerTag.Signature :=
  short_sample_falls_through
    ⟨[0x89, 0x50, 0x4E, 0x47, 0x0D, 0x0A, 0x1A, 0x0A], "PNG"⟩
    [0x89] (by decide) (by decide)

/-- Claim C7: every built-in magic is at most 8 bytes (PNG 8, JPEG 3, MZ 2,
ID3 3, PDF 4), so the first 8 bytes of a sample decide identification, and
16 bytes cover all built-ins with margin. -/
theorem eight_byte_sample_covers :
    (∀ sig ∈ builtinSignatures, sig.magic.length ≤ 8) ∧
    builtinSignatures.map (fun s => s.magic.length) = [8, 3, 2, 3, 4] ∧
    (∀ sample : List Nat, identify (sample.take 8) = identify sample) ∧
    (∀ sample : List Nat, identify (sample.take 16) = identify sample) := by
  refine ⟨by decide, by decide, ?_, ?_⟩
  · intro sample; exact identify_take 8 sample (by decide)
  · intro sample; exact identify_take 16 sample (by decide)

/-- Claim C8: classify is deterministic; two calls with identical path,
sample and policy yield identical Verdicts, decision, layer and reason
alike. -/
theorem classify_deterministic (path : String) (sample : List Nat)
    (pol : ClassificationPolicy) :
    classify path sample pol = classify path sample pol := rfl

end LogGate

namespace FixTests

theorem matchAt_nil : matchAt [] = none := rfl

theorem fixContent_nil : fixContent [] = [] := by
  simp [fixContent]

theorem fixContent_cons_some (c : Char) (cs rest : List Char)
    (h : matchAt (c :: cs) = some rest) :
    fixContent (c :: cs) = repl ++ fixContent rest := by
  simp only [fixContent]
  split
  · rename_i rest2 heq
    rw [h] at heq
    injection heq with h3
    rw [h3]
  · rename_i heq
    rw [h] at heq
    exact absurd heq (by simp)

theorem fixContent_cons_none (c : Char) (cs : List Char)
    (h : matchAt (c :: cs) = none) :
    fixContent (c :: cs) = c :: fixContent cs := by
  simp only [fixContent]
  split
  · rename_i rest2 heq
    rw [h] at heq
    exact absurd heq (by simp)
  · rfl

theorem consumeWs_repl_append (Y : List Char) :
    consumeWs (repl ++ Y) = "await renderAppAndWait();".toList ++ Y := rfl

theorem matchAt_repl_drop (Y : List Char) (i : Nat) (hi : i < 31) :
    matchAt (List.drop i repl ++ Y) = none := by
  interval_cases i <;> rfl

theorem consumeLit_chunk_await (m : List Char) (hm : m ∈ tailChunks)
    (t : List Char) : consumeLit m ('a' :: t) = none := by
  fin_cases hm <;> rfl

theorem consumeLit_lit1_drop (k : Nat) (hk : k < 13) (Y : List Char) :
    consumeLit (List.drop k lit1) (repl ++ Y) = none := by
  interval_cases k <;> rfl

theorem consumeLit_tail_chunk_drop (m : List Char) (hm : m ∈ tailChunks)
    (k : Nat) (hk : k < m.length) (Y : List Char) :
    consumeLit (List.drop k m) (repl ++ Y) = none := by
  fin_cases hm
  · have hk2 : k < 13 := hk
    interval_cases k <;> rfl
  · have hk2 : k < 4 := hk
    interval_cases k <;> rfl
  · have hk2 : k < 2 := hk
    interval_cases k <;> rfl
  · have hk2 : k < 14 := hk
    interval_cases k <;> rfl
  · have hk2 : k < 2 := hk
    interval_cases k <;> rfl

theorem consumeLit_some_drop :
    ∀ (x m m2 : List Char), consumeLit x m = some m2 →
      m2 = m.drop x.length ∧ x.length ≤ m.length := by
  intro x
  induction x with
  | nil =>
    intro m m2 h
    simp only [consumeLit, Option.some.injEq] at h
    simp [← h]
  | cons a as ih =>
    intro m m2 h
    cases m with
    | nil => simp [consumeLit] at h
    | cons b bs =>
      simp only [consumeLit] at h
      split at h
      · have h2 := ih bs m2 h
        simp only [List.length_cons, List.drop_succ_cons]
        exact ⟨h2.1, by omega⟩
      · exact absurd h (by simp)

theorem consumeLit_append_of_some :
    ∀ (m x y : List Char), consumeLit m x = some y →
      ∀ z, consumeLit m (x ++ z) = some (y ++ z) := by
  intro m
  induction m with
  | nil =>
    intro x y h z
    simp only [consumeLit, Option.some.injEq] at h
    simp [consumeLit, ← h]
  | cons a as ih =>
    intro x y h z
    cases x with
    | nil => simp [consumeLit] at h
    | cons b bs =>
      simp only [consumeLit] at h
      simp only [List.cons_append, consumeLit]
      split at h
      · rename_i hab
        rw [if_pos hab]
        exact ih bs y h z
      · exact absurd h (by simp)

theorem consumeLit_append_cases :
    ∀ (m x z r : List Char), consumeLit m (x ++ z) = some r →
      (∃ y, consumeLit m x = some y ∧ r = y ++ z) ∨
      (∃ m2, m2 ≠ [] ∧ consumeLit x m = some m2 ∧ consumeLit m2 z = some r) := by
  intro m
  induction m with
  | nil =>
    intro x z r h
    simp only [consumeLit, Option.some.injEq] at h
    exact Or.inl ⟨x, rfl, h.symm⟩
  | cons a as ih =>
    intro x z r h
    cases x with
    | nil =>
      exact Or.inr ⟨a :: as, by simp, rfl, h⟩
    | cons b bs =>
      rw [List.cons_append] at h
      simp only [consumeLit] at h
      split at h
      · rename_i hab
        have hab2 : a = b := by simpa using hab
        subst hab2
        rcases ih bs z r h with ⟨y, hy, hr⟩ | ⟨m2, hne, h1, h2⟩
        · left
          refine ⟨y, ?_, hr⟩
          simp only [consumeLit]
          rw [if_pos (by simp)]
          exact hy
        · right
          refine ⟨m2, hne, ?_, h2⟩
          simp only [consumeLit]
          rw [if_pos (by simp)]
          exact h1
      · exact absurd h (by simp)

theorem consumeWs_append_pos :
    ∀ (x z : List Char), consumeWs x ≠ [] → consumeWs (x ++ z) = consumeWs x ++ z := by
  intro x
  induction x with
  | nil => intro z h; exact absurd rfl h
  | cons c cs ih =>
    intro z h
    by_cases hc : wsChar c = true
    · have hA : consumeWs (c :: cs) = consumeWs cs := by
        simp [consumeWs, List.dropWhile_cons, hc]
      have hB : consumeWs ((c :: cs) ++ z) = consumeWs (cs ++ z) := by
        simp [consumeWs, List.dropWhile_cons, hc]
      rw [hB, hA]
      exact ih z (by rw [← hA]; exact h)
    · have hA : consumeWs (c :: cs) = c :: cs := by
        simp [consumeWs, List.dropWhile_cons, hc]
      have hB : consumeWs ((c :: cs) ++ z) = c :: (cs ++ z) := by
        simp [consumeWs, List.dropWhile_cons, hc]
      rw [hB, hA, List.cons_append]

theorem consumeWs_append_nil :
    ∀ (x z : List Char), consumeWs x = [] → consumeWs (x ++ z) = consumeWs z := by
  intro x
  induction x with
  | nil => intro z _; rfl
  | cons c cs ih =>
    intro z h
    simp only [consumeWs, List.dropWhile_cons] at h
    by_cases hc : wsChar c = true
    · rw [if_pos hc] at h
      simp only [List.cons_append, consumeWs, List.dropWhile_cons, hc, if_true]
      exact ih z h
    · rw [if_neg hc] at h
      exact absurd h (by simp)

theorem runChunks_transfer :
    ∀ ms : List (List Char), ms <:+ tailChunks → ∀ (X A T : List Char),
      runChunks ms (X ++ A) = none → runChunks ms (X ++ (repl ++ T)) = none := by
  intro ms
  induction ms with
  | nil =>
    intro _ X A T h
    simp [runChunks] at h
  | cons m ms2 ih =>
    intro hsfx X A T h
    have hm : m ∈ tailChunks := hsfx.subset (List.mem_cons_self m ms2)
    have hms2 : ms2 <:+ tailChunks := (List.suffix_cons m ms2).trans hsfx
    by_cases hX : consumeWs X = []
    · have e1 : consumeWs (X ++ (repl ++ T)) = consumeWs (repl ++ T) :=
        consumeWs_append_nil _ _ hX
      have e2 : consumeWs (repl ++ T) = 'a' :: ("wait renderAppAndWait();".toList ++ T) :=
        consumeWs_repl_append T
      simp only [runChunks, e1, e2, consumeLit_chunk_await m hm]
    · have e1 : consumeWs (X ++ A) = consumeWs X ++ A := consumeWs_append_pos _ _ hX
      have e2 : consumeWs (X ++ (repl ++ T)) = consumeWs X ++ (repl ++ T) :=
        consumeWs_append_pos _ _ hX
      simp only [runChunks, e1, e2] at h ⊢
      cases hc : consumeLit m (consumeWs X ++ (repl ++ T)) with
      | none => simp
      | some r =>
        rcases consumeLit_append_cases m (consumeWs X) (repl ++ T) r hc with
          ⟨y, hy, hr⟩ | ⟨m2, hne, hxm, hm2⟩
        · have hA : consumeLit m (consumeWs X ++ A) = some (y ++ A) :=
            consumeLit_append_of_some m (consumeWs X) y hy A
          rw [hA] at h
          subst hr
          exact ih hms2 y A T h
        · obtain ⟨hm2eq, hle⟩ := consumeLit_some_drop (consumeWs X) m m2 hxm
          have hlt : (consumeWs X).length < m.length := by
            rcases Nat.lt_or_ge (consumeWs X).length m.length with h1 | h1
            · exact h1
            · exact absurd (hm2eq.trans (List.drop_eq_nil_of_le h1)) hne
          have hnone : consumeLit m2 (repl ++ T) = none := by
            rw [hm2eq]
            exact consumeLit_tail_chunk_drop m hm _ hlt T
          rw [hnone] at hm2
          exact absurd hm2 (by simp)

theorem matchAt_transfer (X A T : List Char) (h : matchAt (X ++ A) = none) :
    matchAt (X ++ (repl ++ T)) = none := by
  simp only [matchAt] at h ⊢
  cases hc : consumeLit lit1 (X ++ (repl ++ T)) with
  | none => simp
  | some r =>
    rcases consumeLit_append_cases lit1 X (repl ++ T) r hc with
      ⟨y, hy, hr⟩ | ⟨m2, hne, hxm, hm2⟩
    · have hA : consumeLit lit1 (X ++ A) = some (y ++ A) :=
        consumeLit_append_of_some lit1 X y hy A
      rw [hA] at h
      subst hr
      exact runChunks_transfer tailChunks (List.suffix_refl _) y A T h
    · obtain ⟨hm2eq, hle⟩ := consumeLit_some_drop X lit1 m2 hxm
      have hlt : X.length < lit1.length := by
        rcases Nat.lt_or_ge X.length lit1.length with h1 | h1
        · exact h1
        · exact absurd (hm2eq.trans (List.drop_eq_nil_of_le h1)) hne
      have hnone : consumeLit m2 (repl ++ T) = none := by
        rw [hm2eq]
        exact consumeLit_lit1_drop X.length hlt T
      rw [hnone] at hm2
      exact absurd hm2 (by simp)

theorem fixContent_struct : ∀ l : List Char,
    fixContent l = l ∨
      ∃ p mid rest, l = p ++ mid ∧ matchAt mid = some rest ∧
        fixContent l = p ++ (repl ++ fixContent rest) := by
  intro l
  induction l using fixContent.induct with
  | case1 => exact Or.inl fixContent_nil
  | case2 c cs rest h ih =>
    right
    exact ⟨[], c :: cs, rest, rfl, h, by
      rw [fixContent_cons_some c cs rest h]; rfl⟩
  | case3 c cs h ih =>
    rcases ih with hid | ⟨p, mid, rest, hl, hmid, hf⟩
    · left
      rw [fixContent_cons_none c cs h, hid]
    · right
      refine ⟨c :: p, mid, rest, ?_, hmid, ?_⟩
      · rw [List.cons_append, ← hl]
      · rw [fixContent_cons_none c cs h, hf, List.cons_append]

theorem noMatchAll_fixContent : ∀ l : List Char, NoMatchAll (fixContent l) := by
  intro l
  induction l using fixContent.induct with
  | case1 =>
    intro i
    rw [fixContent_nil, List.drop_nil]
    exact matchAt_nil
  | case2 c cs rest h ih =>
    rw [fixContent_cons_some c cs rest h]
    intro i
    rw [List.drop_append_eq_append_drop]
    by_cases hi : i < 31
    · have h0 : i - repl.length = 0 := by
        have h31 : repl.length = 31 := rfl
        omega
      rw [h0, List.drop_zero]
      exact matchAt_repl_drop (fixContent rest) i hi
    · have h1 : List.drop i repl = [] := by
        apply List.drop_eq_nil_of_le
        have h31 : repl.length = 31 := rfl
        omega
      rw [h1, List.nil_append]
      exact ih (i - repl.length)
  | case3 c cs h ih =>
    rw [fixContent_cons_none c cs h]
    intro i
    cases i with
    | zero =>
      rw [List.drop_zero]
      rcases fixContent_struct cs with hid | ⟨p, mid, rest, hl, hmid, hf⟩
      · rw [hid]
        exact h
      · rw [hf, show c :: (p ++ (repl ++ fixContent rest)) =
          (c :: p) ++ (repl ++ fixContent rest) from rfl]
        apply matchAt_transfer (c :: p) mid (fixContent rest)
        rw [show (c :: p) ++ mid = c :: (p ++ mid) from rfl, ← hl]
        exact h
    | succ j =>
      rw [List.drop_succ_cons]
      exact ih j

theorem fixContent_of_noMatchAll : ∀ l : List Char, NoMatchAll l → fixContent l = l := by
  intro l
  induction l with
  | nil => intro _; exact fixContent_nil
  | cons c cs ih =>
    intro h
    have h0 : matchAt (c :: cs) = none := by
      have h1 := h 0
      rwa [List.drop_zero] at h1
    rw [fixContent_cons_none c cs h0]
    rw [ih (fun i => by
      have h2 := h (i + 1)
      rwa [List.drop_succ_cons] at h2)]

theorem fixContent_idem_chars (content : List Char) :
    fixContent (fixContent content) = fixContent content :=
  fixContent_of_noMatchAll _ (noMatchAll_fixContent content)

/-- Claim C9: the content transformation of fix_test_file is idempotent:
substituting the render block a second time changes nothing, because the
replacement text can never take part in a pattern match. -/
theorem fix_test_file_idempotent (content : String) :
    fixTestContent (fixTestContent content) = fixTestContent content := by
  unfold fixTestContent
  rw [show (String.mk (fixContent content.toList)).toList =
    fixContent content.toList from rfl]
  rw [fixContent_idem_chars]

end FixTests

namespace FixLocks

open FixTests

theorem dropWhile_len_le (p : Char → Bool) :
    ∀ l : List Char, (l.dropWhile p).length ≤ l.length := by
  intro l
  induction l with
  | nil => simp
  | cons c cs ih =>
    simp only [List.dropWhile_cons]
    split
    · simp only [List.length_cons]
      omega
    · simp

/-- The left brace character, written by code point. -/
def lbrace : Char := Char.ofNat 123

/-- Python str.strip with no argument: remove the characters str.isspace
accepts at both ends, the same class `\s` matches in str patterns. -/
def strip (l : List Char) : List Char :=
  ((l.dropWhile FixTests.wsChar).reverse.dropWhile FixTests.wsChar).reverse

/-- Non-dot character class of the first capture group. -/
def notDot (c : Char) : Bool := !(c == '.')

/-- Non-closing-parenthesis character class of the second capture group. -/
def notRParen (c : Char) : Bool := !(c == ')')

/-- Leading literal of the fix_match_lock pattern. -/
def litMatch : List Char := "match".toList

/-- Literal after the first capture group. -/
def litDotLock : List Char := ".lock()".toList

/-- Literal opening the Ok branch. -/
def litOk : List Char := "Ok(".toList

/-- Closing literal of the pattern. -/
def litArrow : List Char := "=>".toList

/-- The replacement text replace_match builds from the two stripped capture
groups. -/
def mkReplacement (g1 g2 : List Char) : List Char :=
  lbrace :: '\n' :: ("        let ".toList ++ strip g2 ++ " = ".toList ++
    strip g1 ++ ".lock();".toList)

/-- Final stage of the fix_match_lock pattern, after `Ok(`: the second
capture group (one or more non-parenthesis characters), the closing
parenthesis, optional whitespace and `=>`. -/
def matchLockFinish (group1 g2 afterG2 : List Char) :
    Option (List Char × List Char) :=
  if g2.isEmpty then none
  else
    match consumeLit [')'] afterG2 with
    | none => none
    | some s5 =>
      match consumeLit litArrow (s5.dropWhile wsChar) with
      | none => none
      | some rest => some (mkReplacement group1 g2, rest)

/-- Middle stage of the fix_match_lock pattern, once the literal `match` is
consumed: `w` is the whitespace run after it, `core` the non-dot run after
that, and `afterCore` the input from the first dot on. The greedy
one-or-more whitespace gap and greedy first capture group backtrack
deterministically: the group always ends at the first dot; when `core` is
nonempty the group is `core`, otherwise the engine gives the group the last
whitespace character, which needs a gap of at least two. -/
def matchLockBody (w core afterCore : List Char) :
    Option (List Char × List Char) :=
  if w.length == 0 then none
  else
    match
      (if core.isEmpty then
        (if 2 ≤ w.length then some (w.drop (w.length - 1)) else none)
      else some core) with
    | none => none
    | some group1 =>
      match consumeLit litDotLock afterCore with
      | none => none
      | some s2 =>
        match consumeLit [lbrace] (s2.dropWhile wsChar) with
        | none => none
        | some s3 =>
          match consumeLit litOk (s3.dropWhile wsChar) with
          | none => none
          | some s4 =>
            matchLockFinish group1 (s4.takeWhile notRParen)
              (s4.dropWhile notRParen)

/-- Try the fix_match_lock pattern at the head of the input, returning the
replacement text replace_match builds and the rest of the input on
success. -/
def matchLockAt (s : List Char) : Option (List Char × List Char) :=
  match consumeLit litMatch s with
  | none => none
  | some s1 =>
    matchLockBody (s1.takeWhile wsChar)
      (List.takeWhile notDot (s1.dropWhile wsChar))
      (List.dropWhile notDot (s1.dropWhile wsChar))

theorem matchLockFinish_length :
    ∀ (g1 g2 a r rest : List Char), matchLockFinish g1 g2 a = some (r, rest) →
      rest.length ≤ a.length := by
  intro g1 g2 a r rest h
  unfold matchLockFinish at h
  split at h
  · simp at h
  · split at h
    · simp at h
    · rename_i s5 h5
      have l5 := consumeLit_length [')'] _ s5 h5
      split at h
      · simp at h
      · rename_i rest0 h6
        have l6 := consumeLit_length litArrow _ rest0 h6
        injection h with h7
        cases h7
        have d6 := dropWhile_len_le wsChar s5
        have e4 : litArrow.length = 2 := rfl
        simp only [List.length_cons] at l5
        omega

theorem matchLockBody_length :
    ∀ (w core a r rest : List Char), matchLockBody w core a = some (r, rest) →
      rest.length ≤ a.length := by
  intro w core a r rest h
  unfold matchLockBody at h
  split at h
  · simp at h
  · split at h
    · simp at h
    · rename_i group1 hg1
      split at h
      · simp at h
      · rename_i s2 h2
        have l2 := consumeLit_length litDotLock _ s2 h2
        split at h
        · simp at h
        · rename_i s3 h3
          have l3 := consumeLit_length [lbrace] _ s3 h3
          split at h
          · simp at h
          · rename_i s4 h4
            have l4 := consumeLit_length litOk _ s4 h4
            have lf := matchLockFinish_length group1 (s4.takeWhile notRParen)
              (s4.dropWhile notRParen) r rest h
            have d3 := dropWhile_len_le wsChar s2
            have d4 := dropWhile_len_le wsChar s3
            have d5 := dropWhile_len_le notRParen s4
            have e2 : litDotLock.length = 7 := rfl
            have e3 : litOk.length = 3 := rfl
            simp only [List.length_cons] at l3
            omega

theorem matchLockAt_length :
    ∀ (s r rest : List Char), matchLockAt s = some (r, rest) →
      rest.length < s.length := by
  intro s r rest h
  unfold matchLockAt at h
  split at h
  · simp at h
  · rename_i s1 h1
    have l1 := consumeLit_length litMatch s s1 h1
    have lb := matchLockBody_length (s1.takeWhile wsChar)
      (List.takeWhile notDot (s1.dropWhile wsChar))
      (List.dropWhile notDot (s1.dropWhile wsChar)) r rest h
    have d1 := dropWhile_len_le wsChar s1
    have d2 := dropWhile_len_le notDot (s1.dropWhile wsChar)
    have e1 : litMatch.length = 5 := rfl
    omega

/-- The substitution fix_match_lock performs with its pattern: scan left to
right, replace each leftmost non-overlapping match, continue after it. -/
def fixMatchLockChars : List Char → List Char
  | [] => []
  | c :: cs =>
    match h : matchLockAt (c :: cs) with
    | some (r, rest) => r ++ fixMatchLockChars rest
    | none => c :: fixMatchLockChars cs
termination_by l => l.length
decreasing_by
  · exact matchLockAt_length _ _ _ h
  · simp

/-- fix_match_lock of fix_all_locks.py: rewrite each
`match <var>.lock() ... Ok(<guard>) =>` head into a block binding the lock
guard directly. A pure, total transformation of the file content. -/
def fix_match_lock (content : String) : String :=
  String.mk (fixMatchLockChars content.toList)

/-- Observable outcome of one fix_file call: its return value, whether a
write of the new content was attempted, the content written on a successful
write, and the messages printed. -/
structure FixOutcome where
  result : Bool
  attemptedWrite : Bool
  written : Option String
  printed : List String
deriving DecidableEq, Repr

/-- fix_file of fix_all_locks.py. File-system effects enter the shallow
embedding as values: `readRes` is the outcome of reading the file and
`writeRes` the outcome of writing it back, each an error message on
failure; the whole body runs inside one try/except, so every error is
caught, printed, and turned into a False return. -/
def fix_file (filepath : String) (readRes : Except String String)
    (writeRes : Except String Unit) : FixOutcome :=
  match readRes with
  | .error e =>
    ⟨false, false, none, ["Error processing " ++ filepath ++ ": " ++ e]⟩
  | .ok content =>
    let newContent := fix_match_lock content
    if newContent ≠ content then
      match writeRes with
      | .ok _ => ⟨true, true, some newContent, ["Fixed: " ++ filepath]⟩
      | .error e =>
        ⟨false, true, none, ["Error processing " ++ filepath ++ ": " ++ e]⟩
    else ⟨false, false, none, ["No changes: " ++ filepath]⟩

end FixLocks

namespace FixLocks

/-- Claim C10: fix_file never propagates an error: a read or write failure
is caught, printed, and answered with False; it returns True exactly when
the transformed content differs from the original and the write-back
succeeded; and an unchanged file is never rewritten. -/
theorem fix_file_spec (filepath : String) (readRes : Except String String)
    (writeRes : Except String Unit) :
    ((fix_file filepath readRes writeRes).result = true ↔
      ∃ c, readRes = Except.ok c ∧ fix_match_lock c ≠ c ∧
        writeRes = Except.ok ()) ∧
    (∀ c, readRes = Except.ok c → fix_match_lock c = c →
      fix_file filepath readRes writeRes =
        ⟨false, false, none, ["No changes: " ++ filepath]⟩) ∧
    (∀ e, readRes = Except.error e →
      fix_file filepath readRes writeRes =
        ⟨false, false, none, ["Error processing " ++ filepath ++ ": " ++ e]⟩) ∧
    (∀ c e, readRes = Except.ok c → writeRes = Except.error e →
      fix_match_lock c ≠ c →
      fix_file filepath readRes writeRes =
        ⟨false, true, none, ["Error processing " ++ filepath ++ ": " ++ e]⟩) := by
  refine ⟨?_, ?_, ?_, ?_⟩
  · constructor
    · intro h
      cases readRes with
      | error e => simp [fix_file] at h
      | ok c =>
        by_cases hc : fix_match_lock c = c
        · simp [fix_file, hc] at h
        · cases writeRes with
          | error e => simp [fix_file, hc] at h
          | ok u => exact ⟨c, rfl, hc, by cases u; rfl⟩
    · rintro ⟨c, hr, hc, hw⟩
      subst hr
      subst hw
      simp [fix_file, hc]
  · intro c hr hc
    subst hr
    simp [fix_file, hc]
  · intro e hr
    subst hr
    simp [fix_file]
  · intro c e hr hw hc
    subst hr
    subst hw
    simp [fix_file, hc]

end FixLocks

section SpecScenarios

/-- Scenario A of the spec: PNG magic bytes under the name report.log are
rejected at the Signature layer. -/
theorem scenario_png_rejected : LogGate.classify "report.log"
    [0x89, 0x50, 0x4E, 0x47, 0x0D, 0x0A, 0x1A, 0x0A] ⟨[], [], .Accept⟩ =
    ⟨.Reject, .Signature, "matched PNG signature"⟩ := by decide

/-- Scenario B of the spec: plain text named syslog is accepted at the
Pattern layer. -/
theorem scenario_syslog_accepted : LogGate.classify "syslog" [74, 97, 110]
    ⟨[], [], .Reject⟩ = ⟨.Accept, .Pattern, "contains log matched"⟩ := by decide

/-- Scenario C of the spec: a date-suffixed access log is accepted at the
Pattern layer. -/
theorem scenario_date_suffix_accepted : LogGate.classify "access.2024-01-01"
    [49, 50, 55] ⟨[], [], .Reject⟩ =
    ⟨.Accept, .Pattern, "date suffix matched"⟩ := by decide

/-- Scenario D of the spec: notes.md with md blacklisted is rejected at the
Policy layer. -/
theorem scenario_blacklist_rejected : LogGate.classify "notes.md" [35, 32, 78]
    ⟨["csv", "json"], ["md"], .Reject⟩ =
    ⟨.Reject, .Policy, "md in blacklist"⟩ := by decide

/-- Scenario E of the spec: an unknown extension under default Accept is
accepted at the Default layer. -/
theorem scenario_default_accepted : LogGate.classify "data.unknownext"
    [104, 105] ⟨["csv"], ["md"], .Accept⟩ =
    ⟨.Accept, .Default, "no rule matched; applying default"⟩ := by decide

/-- The fix_match_lock pattern matcher on the shape the script documents:
the match head is rewritten to a direct lock-guard binding. -/
theorem scenario_match_lock :
    FixLocks.matchLockAt "match state.lock() \x7b Ok(guard) => x".toList =
      some ("\x7b\n        let guard = state.lock();".toList, " x".toList) := by
  decide

/-- A one-byte sample, shorter than every registered magic, matches no
signature and classification falls through to the policy default. -/
theorem scenario_one_byte_sample : LogGate.classify "data.bin" [0x4D]
    ⟨[], [], .Accept⟩ =
    ⟨.Accept, .Default, "no rule matched; applying default"⟩ := by decide

/-- The whitespace gaps of the render pattern also accept Unicode
whitespace, here no-break spaces, as Python `\s` does on str patterns. -/
theorem scenario_nbsp_render :
    FixTests.matchAt
      "      render(\u00A0<TestWrapper>\u00A0<App\u00A0/>\u00A0</TestWrapper>\u00A0);".toList =
      some [] := by decide

/-- The one-or-more whitespace gap after the `match` literal also accepts a
no-break space, as Python `\s` does on str patterns. -/
theorem scenario_nbsp_match_lock :
    FixLocks.matchLockAt "match\u00A0state.lock() \x7b Ok(guard) => x".toList =
      some ("\x7b\n        let guard = state.lock();".toList, " x".toList) := by
  decide

end SpecScenarios
